import Mathlib

/-
Verification of the go-sse package (SSE parser, serializer and broadcast
handler) against its natural-language specification.

The Go sources are embedded shallowly:

* `scanLines` is the line tokenizer from reader.go; `scanLinesEv` is the
  variant from event.go (it has the extra `else if !atEOF` guard for a
  carriage return at the end of the buffer).
* `tokenize` models bufio.Scanner driving a split function over an
  in-memory stream: the split function is applied with atEOF = false
  until it yields no token, after which the reader reports EOF and the
  split function runs with atEOF = true.  Fuel bounds the recursion; one
  token always consumes at least one byte, so `length + 1` fuel is ample.
* `processLine` / `nextEventAux` / `Reader.NextEvent` embed NextEvent
  from reader.go (field dispatch, comment skipping, sticky id, retry).
* `goAtoi` embeds strconv.Atoi (optional sign, base-10 digits, 64-bit
  range check).
* `Event.Bytes` embeds the serializer from the event source file.
* `Handler.Send`, `Handler.register`, `Handler.disconnect` and
  `Handler.Close` embed handler.go.  A Go channel of capacity N with no
  concurrent receiver accepts a non-blocking send exactly when it holds
  fewer than N buffered values, so a subscriber is a queue plus a closed
  flag; `Send` returns the updated handler together with the list of
  evicted (closed and removed) subscribers.

Bytes are modelled as `List Char`; every input of interest is ASCII.
-/

def defaultMessageType : String := "message"

def fieldNameEvent : String := "event"

def fieldNameData : String := "data"

def fieldNameID : String := "id"

def fieldNameRetry : String := "retry"

/-- Event from event.go: Type, Data, ID (strings). -/
structure Event where
  type : String
  data : String
  id : String
deriving DecidableEq, Repr

/-- Index of the first CR or LF, as computed by bytes.IndexAny(data, "\r\n"). -/
def indexEol : List Char → Option Nat
  | [] => none
  | c :: r => if c = '\r' ∨ c = '\n' then some 0 else (indexEol r).map (· + 1)

/-- Index of the first occurrence of a character (bytes.IndexRune). -/
def indexOfChar (ch : Char) : List Char → Option Nat
  | [] => none
  | c :: r => if c = ch then some 0 else (indexOfChar ch r).map (· + 1)

/-- scanLines from reader.go.  Returns (advance, token); `none` means no
token yet (request more data).  Note: when the terminator is a CR that is
the last available byte and atEOF is false, this version still consumes
one byte. -/
def scanLines (data : List Char) (atEOF : Bool) : Nat × Option (List Char) :=
  if atEOF ∧ data = [] then (0, none)
  else
    match indexEol data with
    | none => if atEOF then (data.length, some data) else (0, none)
    | some eol =>
      let crlf : Nat :=
        if data.get? eol = some '\r' ∧ data.get? (eol + 1) = some '\n' then 2 else 1
      (eol + crlf, some (data.take eol))

/-- scanLines from event.go: identical except for the `else if !atEOF`
branch, which refuses to consume a CR that is the last available byte
until either the next byte or end-of-input is known. -/
def scanLinesEv (data : List Char) (atEOF : Bool) : Nat × Option (List Char) :=
  if atEOF ∧ data = [] then (0, none)
  else
    match indexEol data with
    | none => if atEOF then (data.length, some data) else (0, none)
    | some eol =>
      if data.get? eol = some '\r' then
        match data.get? (eol + 1) with
        | some c =>
          if c = '\n' then (eol + 2, some (data.take eol))
          else (eol + 1, some (data.take eol))
        | none =>
          if atEOF then (eol + 1, some (data.take eol))
          else (0, none)
      else (eol + 1, some (data.take eol))

/-- bufio.Scanner loop after the underlying reader has reported EOF:
the split function runs with atEOF = true until it yields no token. -/
def tokenizeTrue : Nat → List Char → List (List Char)
  | 0, _ => []
  | fuel + 1, s =>
    match scanLines s true with
    | (adv, some tok) => tok :: tokenizeTrue fuel (s.drop adv)
    | (_, none) => []

/-- bufio.Scanner loop while the in-memory stream still has unread data:
the split function runs with atEOF = false; once it yields no token the
reader reports EOF and scanning continues with atEOF = true. -/
def tokenizeFalse : Nat → List Char → List (List Char)
  | 0, _ => []
  | fuel + 1, s =>
    match scanLines s false with
    | (adv, some tok) => tok :: tokenizeFalse fuel (s.drop adv)
    | (_, none) => tokenizeTrue (fuel + 1) s

/-- The token stream a bufio.Scanner with split function `scanLines`
produces for a fully buffered input. -/
def tokenize (s : List Char) : List (List Char) :=
  tokenizeFalse (s.length + 1) s

/-- Reader session state from reader.go: sticky last event id and sticky
reconnection time. -/
structure Reader where
  LastEventID : String
  ReconnectionTime : Int
deriving DecidableEq, Repr

/-- The single-space strip applied to a field value: if the value is
nonempty and starts with a space, that space is removed. -/
def stripSpace : List Char → List Char
  | ' ' :: r => r
  | v => v

/-- Field-name / value split of one line (reader.go): the field is the
part before the first colon (the whole line if there is none, with an
empty value), and a single space after the colon is stripped. -/
def splitField (line : List Char) : List Char × List Char :=
  match indexOfChar ':' line with
  | none => (line, [])
  | some i => (line.take i, stripSpace (line.drop (i + 1)))

/-- strconv.Atoi: optional sign, nonempty run of base-10 digits, value
within the signed 64-bit range; anything else is a parse error. -/
def goAtoi (s : List Char) : Option Int :=
  let p : Bool × List Char :=
    match s with
    | '+' :: r => (false, r)
    | '-' :: r => (true, r)
    | r => (false, r)
  let digits := p.2
  if digits = [] then none
  else if digits.all (fun c => decide ('0' ≤ c ∧ c ≤ '9')) then
    let n : Nat := digits.foldl (fun acc c => acc * 10 + (c.toNat - '0'.toNat)) 0
    let v : Int := if p.1 then -(n : Int) else (n : Int)
    if v < -(2 ^ 63) ∨ (2 ^ 63) - 1 < v then none else some v
  else none

/-- The locals of NextEvent (pending type, accumulated data lines,
pending id) together with the Reader's sticky session fields. -/
structure ParseState where
  eventType : String
  eventData : List String
  eventID : String
  rdr : Reader
deriving DecidableEq, Repr

/-- The field switch of NextEvent for one non-comment, nonempty line:
`event` overwrites the pending type; `data` appends a data line; `id` is
taken only when NUL-free and then also updates the sticky LastEventID;
`retry` updates the sticky ReconnectionTime only when Atoi succeeds;
anything else is ignored. -/
def processLine (st : ParseState) (line : List Char) : ParseState :=
  let fv := splitField line
  if fv.1 = fieldNameEvent.toList then
    { st with eventType := fv.2.asString }
  else if fv.1 = fieldNameData.toList then
    { st with eventData := st.eventData ++ [fv.2.asString] }
  else if fv.1 = fieldNameID.toList then
    if fv.2.contains '\x00' then st
    else
      { st with
        eventID := fv.2.asString,
        rdr := { st.rdr with LastEventID := fv.2.asString } }
  else if fv.1 = fieldNameRetry.toList then
    match goAtoi fv.2 with
    | none => st
    | some i => { st with rdr := { st.rdr with ReconnectionTime := i } }
  else st

/-- The scanning loops of NextEvent over the token stream: empty lines
are dispatch boundaries (an event is produced only if data lines have
accumulated; otherwise scanning continues with the pending state kept),
comment lines are skipped, and running out of tokens yields no event. -/
def nextEventAux : ParseState → List (List Char) → Option Event × Reader × List (List Char)
  | st, [] => (none, st.rdr, [])
  | st, line :: rest =>
    if line = [] then
      if st.eventData = [] then nextEventAux st rest
      else
        (some { type := st.eventType,
                data := String.intercalate "\n" st.eventData,
                id := st.eventID },
         st.rdr, rest)
    else if line.head? = some ':' then nextEventAux st rest
    else nextEventAux (processLine st line) rest

/-- NextEvent from reader.go: the pending type starts at "message", the
pending id starts at the sticky LastEventID, and no data lines are
accumulated yet. -/
def Reader.NextEvent (r : Reader) (lines : List (List Char)) :
    Option Event × Reader × List (List Char) :=
  nextEventAux { eventType := defaultMessageType, eventData := [],
                 eventID := r.LastEventID, rdr := r } lines

/-- Calling NextEvent repeatedly until it signals no-more-events,
collecting the produced events (the pattern of the package's tests). -/
def readAll : Nat → Reader → List (List Char) → List Event × Reader
  | 0, r, _ => ([], r)
  | fuel + 1, r, lines =>
    match r.NextEvent lines with
    | (none, r2, _) => ([], r2)
    | (some e, r2, rest) =>
      let p := readAll fuel r2 rest
      (e :: p.1, p.2)

/-- Fresh reader state: empty sticky id, zero reconnection time. -/
def initReader : Reader := { LastEventID := "", ReconnectionTime := 0 }

/-- Parse a complete input string: tokenize it with the reader.go scanner
and drain NextEvent.  Every NextEvent call that produces an event consumes
at least one token and every token consumes at least one byte, so
`length + 1` fuel is ample. -/
def parse (s : String) : List Event × Reader :=
  readAll (s.toList.length + 1) initReader (tokenize s.toList)

/-- Bytes from the event source file: an event line only when Type is
nonempty, an id line only when ID is nonempty, and always a data line
followed by the blank terminator line. -/
def Event.Bytes (e : Event) : List Char :=
  (if e.type = "" then [] else "event:".toList ++ e.type.toList ++ ['\n']) ++
  (if e.id = "" then [] else "id:".toList ++ e.id.toList ++ ['\n']) ++
  ("data:".toList ++ e.data.toList ++ ['\n', '\n'])

/-- HandlerConfig from handler.go. -/
structure HandlerConfig where
  NumEventsToKeep : Nat
  ChannelBufferSize : Nat
deriving DecidableEq, Repr

/-- DefaultHandlerConfig from handler.go. -/
def DefaultHandlerConfig : HandlerConfig :=
  { NumEventsToKeep := 10, ChannelBufferSize := 4 }

/-- One registered client: its buffered event channel (a queue of
buffered-but-unread events plus a closed flag) and an identity. -/
structure Subscriber where
  sid : Nat
  buffer : List Event
  closed : Bool
deriving DecidableEq, Repr

/-- Handler state from handler.go: configuration, replay window
(eventQueue), active subscriber set (eventChans) and the closed mark. -/
structure Handler where
  cfg : HandlerConfig
  eventQueue : List Event
  eventChans : List Subscriber
  isClosed : Bool
deriving DecidableEq, Repr

/-- NewHandler from handler.go (with an explicit configuration). -/
def NewHandler (cfg : HandlerConfig) : Handler :=
  { cfg := cfg, eventQueue := [], eventChans := [], isClosed := false }

/-- The registration step of ServeHTTP: a closed handler rejects the
connection (503), otherwise a fresh empty channel is added to the active
set. -/
def Handler.register (h : Handler) (sid : Nat) : Option Handler :=
  if h.isClosed then none
  else
    some { h with
           eventChans := h.eventChans ++ [{ sid := sid, buffer := [], closed := false }] }

/-- The client-disconnect path of ServeHTTP: the subscriber's channel is
deleted from the active set. -/
def Handler.disconnect (h : Handler) (sid : Nat) : Handler :=
  { h with eventChans := h.eventChans.filter (fun c => c.sid ≠ sid) }

/-- Send from handler.go: a non-blocking send to every active channel —
a channel with free capacity receives the event, a full one is closed and
deleted — then the event is appended to the replay window, dropping the
oldest entry if the window now exceeds NumEventsToKeep.  Returns the new
handler state and the evicted subscribers. -/
def Handler.Send (h : Handler) (e : Event) : Handler × List Subscriber :=
  let results := h.eventChans.map (fun c =>
    if c.buffer.length < h.cfg.ChannelBufferSize then
      (({ c with buffer := c.buffer ++ [e] } : Subscriber), true)
    else
      (({ c with closed := true } : Subscriber), false))
  let q := h.eventQueue ++ [e]
  ({ h with
     eventChans := (results.filter (fun p => p.2)).map (fun p => p.1),
     eventQueue := if q.length > h.cfg.NumEventsToKeep then q.drop 1 else q },
   (results.filter (fun p => !p.2)).map (fun p => p.1))

/-- Close from handler.go: every active channel is closed and the handler
is marked closed.  The channels are not removed from the map. -/
def Handler.Close (h : Handler) : Handler :=
  { h with
    eventChans := h.eventChans.map (fun c => { c with closed := true }),
    isClosed := true }

/-- Folding Send over a list of events, keeping the handler state. -/
def sends (h : Handler) (es : List Event) : Handler :=
  es.foldl (fun acc e => (acc.Send e).1) h

/-- A handler with one freshly registered subscriber and the given
replay-window and channel capacities. -/
def oneSubHandler (keep cap : Nat) : Handler :=
  { cfg := { NumEventsToKeep := keep, ChannelBufferSize := cap },
    eventQueue := [],
    eventChans := [{ sid := 0, buffer := [], closed := false }],
    isClosed := false }

/-- The replay computation of ServeHTTP (the locked section): scan the
window for the last entry whose ID equals the presented id (starting from
index -1) and return everything strictly after it. -/
def lastMatchIdxAux (lid : String) : List Event → Int → Int → Int
  | [], _, acc => acc
  | e :: r, i, acc => lastMatchIdxAux lid r (i + 1) (if lid = e.id then i else acc)

/-- The list of events ServeHTTP replays to a resuming client. -/
def ReplayEvents (queue : List Event) (lid : String) : List Event :=
  queue.drop (lastMatchIdxAux lid queue 0 (-1) + 1).toNat

/-- Index of the last entry matching the presented id, computed
structurally from the right (specification-side mirror of the Go loop). -/
def lastMatchNat (lid : String) : List Event → Option Nat
  | [] => none
  | e :: r =>
    match lastMatchNat lid r with
    | some j => some (j + 1)
    | none => if lid = e.id then some 0 else none

/-- A list of characters none of which is a line break. -/
def noEol (l : List Char) : Prop := ∀ c ∈ l, c ≠ '\n' ∧ c ≠ '\r'

instance (l : List Char) : Decidable (noEol l) := by
  unfold noEol
  infer_instance

/-- Claim C1: on the input "event:foo\n\ndata:bar\n\n" the code produces a
single event whose type is "foo", not the default "message": the pending
event type set before the empty-data dispatch boundary is NOT discarded,
because NextEvent resets the pending type only once per call, outside the
scanning loop. -/
theorem c1_type_not_discarded :
    (parse "event:foo\n\ndata:bar\n\n").1 =
      [{ type := "foo", data := "bar", id := "" }] := by decide

/-- Claim C2: at input "\r" with atEOF = false, the reader.go tokenizer
consumes one byte and yields an (empty) token, speculatively deciding the
1-byte consumption; the event.go variant, the repository's own
TestScanLines case and the claim all require zero bytes consumed and no
token.  At true end-of-stream both variants return a trailing
terminator-free run as a final token. -/
theorem c2_lone_cr_divergence :
    scanLines ['\r'] false = (1, some []) ∧
    scanLinesEv ['\r'] false = (0, none) ∧
    scanLinesEv ['\r'] true = (1, some []) ∧
    scanLines ['a', 'b', 'c'] true = (3, some ['a', 'b', 'c']) ∧
    scanLinesEv ['a', 'b', 'c'] true = (3, some ['a', 'b', 'c']) := by decide

/-- Claim C6: the id is sticky — "id:1\ndata:\n\ndata:\n\n" yields exactly
two events, both with ID "1", and the sticky LastEventID ends as "1";
an id whose value contains a NUL byte is dropped, so
"id:\x00\ndata:\n\n" yields one event with an empty ID and leaves the
sticky id empty. -/
theorem c6_sticky_id :
    (parse "id:1\ndata:\n\ndata:\n\n").1 =
      [{ type := "message", data := "", id := "1" },
       { type := "message", data := "", id := "1" }] ∧
    (parse "id:1\ndata:\n\ndata:\n\n").2.LastEventID = "1" ∧
    (parse "id:\x00\ndata:\n\n").1 =
      [{ type := "message", data := "", id := "" }] ∧
    (parse "id:\x00\ndata:\n\n").2.LastEventID = "" := by decide

/-- Claim C3, counterexample: the serializer emits a data line even for an
event whose Data is empty (the data line is unconditional), so "an empty
Data yields no data line" fails on the all-empty event. -/
theorem c3_counterexample :
    Event.Bytes { type := "", data := "", id := "" } = "data:\n\n".toList := by decide

/-- Claim C8: processing a retry line leaves the whole parse state
unchanged except that the sticky ReconnectionTime becomes the parsed
integer when Atoi succeeds on the (space-stripped) value, and is retained
unchanged when Atoi fails; no error is raised either way. -/
theorem c8_retry_field (st : ParseState) (v : List Char) :
    processLine st ('r' :: 'e' :: 't' :: 'r' :: 'y' :: ':' :: v) =
      { st with
        rdr := { st.rdr with
                 ReconnectionTime :=
                   (goAtoi (stripSpace v)).getD st.rdr.ReconnectionTime } } := by
  have hsplit : splitField ('r' :: 'e' :: 't' :: 'r' :: 'y' :: ':' :: v) =
      (fieldNameRetry.toList, stripSpace v) := rfl
  unfold processLine
  rw [hsplit]
  dsimp only
  rw [if_neg (by decide), if_neg (by decide), if_neg (by decide), if_pos (by rfl)]
  cases hga : goAtoi (stripSpace v) with
  | none => simp [hga]
  | some i => simp [hga]

/-- Claim C10: if the remaining token stream contains no empty line (no
dispatch boundary), NextEvent's scanning loop reaches the end of the
stream, produces no event, reports no error, and leaves no tokens — any
pending data lines are discarded. -/
theorem c10_trailing_data_discarded (st : ParseState) (lines : List (List Char))
    (h : ∀ l ∈ lines, l ≠ []) :
    (nextEventAux st lines).1 = none ∧ (nextEventAux st lines).2.2 = [] := by
  induction lines generalizing st with
  | nil => exact ⟨rfl, rfl⟩
  | cons l rest ih =>
    have hl : l ≠ [] := h l (by simp)
    have hrest : ∀ x ∈ rest, x ≠ [] := fun x hx => h x (by simp [hx])
    unfold nextEventAux
    rw [if_neg hl]
    by_cases hc : l.head? = some ':'
    · rw [if_pos hc]
      exact ih _ hrest
    · rw [if_neg hc]
      exact ih _ hrest

/-- Witness for c10_trailing_data_discarded: the input "data:" tokenizes
to a single nonempty line, and on it NextEvent yields no event and no
remaining tokens. -/
theorem c10_trailing_data_discarded_witness :
    (∀ l ∈ tokenize "data:".toList, l ≠ []) ∧
    (nextEventAux { eventType := "message", eventData := [], eventID := "",
                    rdr := initReader } (tokenize "data:".toList)).1 = none := by
  refine ⟨by decide, ?_⟩
  exact (c10_trailing_data_discarded _ _ (by decide)).1

theorem sendFilterMapKept (cap : Nat) (e : Event) (L : List Subscriber) :
    ((L.map (fun c =>
        if c.buffer.length < cap then
          (({ c with buffer := c.buffer ++ [e] } : Subscriber), true)
        else
          (({ c with closed := true } : Subscriber), false))).filter
      (fun p => p.2)).map (fun p => p.1) =
    (L.filter (fun c => c.buffer.length < cap)).map
      (fun c => { c with buffer := c.buffer ++ [e] }) := by
  induction L with
  | nil => rfl
  | cons c r ih =>
    by_cases hc : c.buffer.length < cap
    · simp only [List.map_cons, if_pos hc, List.filter_cons]
      simp [ih, hc]
    · simp only [List.map_cons, if_neg hc, List.filter_cons]
      simp [ih, hc]

theorem sendFilterMapEvicted (cap : Nat) (e : Event) (L : List Subscriber) :
    ((L.map (fun c =>
        if c.buffer.length < cap then
          (({ c with buffer := c.buffer ++ [e] } : Subscriber), true)
        else
          (({ c with closed := true } : Subscriber), false))).filter
      (fun p => !p.2)).map (fun p => p.1) =
    (L.filter (fun c => cap ≤ c.buffer.length)).map
      (fun c => { c with closed := true }) := by
  induction L with
  | nil => rfl
  | cons c r ih =>
    by_cases hc : c.buffer.length < cap
    · have hle : ¬ cap ≤ c.buffer.length := by omega
      simp only [List.map_cons, if_pos hc, List.filter_cons]
      simp [ih, hle]
    · have hle : cap ≤ c.buffer.length := by omega
      simp only [List.map_cons, if_neg hc, List.filter_cons]
      simp [ih, hle]

theorem send_chans (h : Handler) (e : Event) :
    (h.Send e).1.eventChans =
      (h.eventChans.filter (fun c => c.buffer.length < h.cfg.ChannelBufferSize)).map
        (fun c => { c with buffer := c.buffer ++ [e] }) := by
  unfold Handler.Send
  dsimp only
  exact sendFilterMapKept h.cfg.ChannelBufferSize e h.eventChans

theorem send_evicted (h : Handler) (e : Event) :
    (h.Send e).2 =
      (h.eventChans.filter (fun c => h.cfg.ChannelBufferSize ≤ c.buffer.length)).map
        (fun c => { c with closed := true }) := by
  unfold Handler.Send
  dsimp only
  exact sendFilterMapEvicted h.cfg.ChannelBufferSize e h.eventChans

theorem send_cfg (h : Handler) (e : Event) : (h.Send e).1.cfg = h.cfg := rfl

theorem sends_single (es : List Event) (h : Handler) (sid : Nat) (buf : List Event)
    (hc : h.eventChans = [{ sid := sid, buffer := buf, closed := false }])
    (hlen : buf.length + es.length ≤ h.cfg.ChannelBufferSize) :
    (sends h es).eventChans = [{ sid := sid, buffer := buf ++ es, closed := false }] ∧
    (sends h es).cfg = h.cfg := by
  induction es generalizing h buf with
  | nil =>
    simp only [sends, List.foldl_nil]
    exact ⟨by simp [hc], trivial⟩
  | cons e rest ih =>
    have hstep : (h.Send e).1.eventChans =
        [{ sid := sid, buffer := buf ++ [e], closed := false }] := by
      rw [send_chans, hc]
      have hlt : buf.length < h.cfg.ChannelBufferSize := by
        simp only [List.length_cons] at hlen
        omega
      simp [hlt]
    have hcfg : (h.Send e).1.cfg = h.cfg := rfl
    have hlen2 : (buf ++ [e]).length + rest.length ≤ (h.Send e).1.cfg.ChannelBufferSize := by
      rw [hcfg]
      simp only [List.length_append, List.length_cons] at hlen ⊢
      simp only [List.length_nil]
      omega
    have := ih (h.Send e).1 (buf ++ [e]) hstep hlen2
    refine ⟨?_, ?_⟩
    · have : (sends h (e :: rest)).eventChans =
        (sends (h.Send e).1 rest).eventChans := rfl
      rw [this, (ih (h.Send e).1 (buf ++ [e]) hstep hlen2).1]
      simp
    · have : (sends h (e :: rest)).cfg = (sends (h.Send e).1 rest).cfg := rfl
      rw [this, (ih (h.Send e).1 (buf ++ [e]) hstep hlen2).2, hcfg]

/-- Claim C5: Send's enqueue attempt is a non-blocking per-subscriber
step — every subscriber with free queue capacity receives the event
(append to its queue) and stays active, every subscriber whose queue
already holds its full capacity is evicted (closed and removed from the
active set); consequently a subscriber with capacity N that never drains
is still active with N buffered events after N Sends and is evicted by
the (N+1)-th. -/
theorem c5_send_eviction (h : Handler) (e : Event) (keep cap : Nat) (es : List Event)
    (hfull : es.length = cap) :
    ((h.Send e).1.eventChans =
       (h.eventChans.filter (fun c => c.buffer.length < h.cfg.ChannelBufferSize)).map
         (fun c => { c with buffer := c.buffer ++ [e] }) ∧
     (h.Send e).2 =
       (h.eventChans.filter (fun c => h.cfg.ChannelBufferSize ≤ c.buffer.length)).map
         (fun c => { c with closed := true })) ∧
    ((sends (oneSubHandler keep cap) es).eventChans =
       [{ sid := 0, buffer := es, closed := false }] ∧
     ((sends (oneSubHandler keep cap) es).Send e).1.eventChans = [] ∧
     ((sends (oneSubHandler keep cap) es).Send e).2 =
       [{ sid := 0, buffer := es, closed := true }]) := by
  have hone : (oneSubHandler keep cap).eventChans =
      [{ sid := 0, buffer := [], closed := false }] := rfl
  have hlen : ([] : List Event).length + es.length ≤
      (oneSubHandler keep cap).cfg.ChannelBufferSize := by
    simp [oneSubHandler, hfull]
  obtain ⟨hchs, hcfg⟩ := sends_single es (oneSubHandler keep cap) 0 [] hone hlen
  have hcapeq : (sends (oneSubHandler keep cap) es).cfg.ChannelBufferSize = cap := by
    rw [hcfg]; rfl
  refine ⟨⟨send_chans h e, send_evicted h e⟩, by simpa using hchs, ?_, ?_⟩
  · rw [send_chans, hchs, hcapeq]
    have : ¬ es.length < cap := by omega
    simp [this]
  · rw [send_evicted, hchs, hcapeq]
    have : cap ≤ es.length := by omega
    simp [this]

/-- Witness for c5_send_eviction at capacity 2 with two buffered events. -/
theorem c5_send_eviction_witness :
    ([{ type := "x", data := "", id := "" },
      { type := "y", data := "", id := "" }] : List Event).length = 2 ∧
    ((sends (oneSubHandler 10 2)
        [{ type := "x", data := "", id := "" },
         { type := "y", data := "", id := "" }]).Send
      { type := "z", data := "", id := "" }).1.eventChans = [] := by
  refine ⟨by decide, ?_⟩
  exact (c5_send_eviction (NewHandler DefaultHandlerConfig)
    { type := "z", data := "", id := "" } 10 2
    [{ type := "x", data := "", id := "" }, { type := "y", data := "", id := "" }]
    (by decide)).2.2.1

/-- Claim C7: Send appends the event at the end of the replay window and,
when the window then exceeds NumEventsToKeep, drops exactly the oldest
entry, so the window preserves send order (it is always a suffix of the
old window extended by the new event) and its size never exceeds the
configured capacity; the other handler operations (register, disconnect,
Close) leave the window unchanged; with capacity 1, sending A then B then
C leaves exactly [C]. -/
theorem c7_window_bound (h h2 : Handler) (e a b c : Event) (sid : Nat)
    (hinv : h.eventQueue.length ≤ h.cfg.NumEventsToKeep) :
    (h.Send e).1.eventQueue.length ≤ h.cfg.NumEventsToKeep ∧
    ((h.Send e).1.eventQueue = h.eventQueue ++ [e] ∨
     (h.Send e).1.eventQueue = (h.eventQueue ++ [e]).drop 1) ∧
    ((h.eventQueue ++ [e]).length ≤ h.cfg.NumEventsToKeep →
      (h.Send e).1.eventQueue = h.eventQueue ++ [e]) ∧
    (h.register sid = some h2 → h2.eventQueue = h.eventQueue) ∧
    (h.disconnect sid).eventQueue = h.eventQueue ∧
    (Handler.Close h).eventQueue = h.eventQueue ∧
    (sends (NewHandler { NumEventsToKeep := 1, ChannelBufferSize := 4 })
        [a, b, c]).eventQueue = [c] := by
  have hq : (h.Send e).1.eventQueue =
      if (h.eventQueue ++ [e]).length > h.cfg.NumEventsToKeep then
        (h.eventQueue ++ [e]).drop 1
      else h.eventQueue ++ [e] := rfl
  refine ⟨?_, ?_, ?_, ?_, rfl, rfl, ?_⟩
  · rw [hq]
    by_cases hgt : (h.eventQueue ++ [e]).length > h.cfg.NumEventsToKeep
    · rw [if_pos hgt]
      simp only [List.length_drop, List.length_append, List.length_cons,
        List.length_nil] at hgt ⊢
      omega
    · rw [if_neg hgt]
      simp only [List.length_append, List.length_cons, List.length_nil] at hgt ⊢
      omega
  · rw [hq]
    by_cases hgt : (h.eventQueue ++ [e]).length > h.cfg.NumEventsToKeep
    · rw [if_pos hgt]; right; rfl
    · rw [if_neg hgt]; left; rfl
  · intro hle
    rw [hq, if_neg (by omega)]
  · intro hreg
    unfold Handler.register at hreg
    by_cases hcl : h.isClosed
    · rw [if_pos hcl] at hreg
      cases hreg
    · rw [if_neg hcl] at hreg
      injection hreg with hreg2
      rw [← hreg2]
  · rfl

/-- Witness for c7_window_bound at a concrete handler within its bound. -/
theorem c7_window_bound_witness :
    (NewHandler DefaultHandlerConfig).eventQueue.length ≤
      (NewHandler DefaultHandlerConfig).cfg.NumEventsToKeep ∧
    (sends (NewHandler { NumEventsToKeep := 1, ChannelBufferSize := 4 })
        [{ type := "A", data := "", id := "" },
         { type := "B", data := "", id := "" },
         { type := "C", data := "", id := "" }]).eventQueue =
      [{ type := "C", data := "", id := "" }] := by
  refine ⟨by decide, ?_⟩
  exact (c7_window_bound (NewHandler DefaultHandlerConfig)
    (NewHandler DefaultHandlerConfig)
    { type := "e", data := "", id := "" }
    { type := "A", data := "", id := "" }
    { type := "B", data := "", id := "" }
    { type := "C", data := "", id := "" } 0 (by decide)).2.2.2.2.2.2

/-- Claim C9, counterexample: after Close, the subscriber set is NOT
empty — Close closes every channel and marks the handler closed, but the
serve loops exit via the closed-channel path without deleting their map
entries, so a subscriber remains registered. -/
theorem c9_counterexample :
    (Handler.Close
      { cfg := DefaultHandlerConfig, eventQueue := [],
        eventChans := [{ sid := 0, buffer := [], closed := false }],
        isClosed := false }).eventChans ≠ [] := by decide

/-- Claim C9, amended: Close marks the handler closed (so further
registrations are rejected) and closes every active subscriber's queue,
but it removes nothing from the subscriber map — the entry count is
unchanged. -/
theorem c9_close_amended (h : Handler) (sid : Nat) (c : Subscriber)
    (hc : c ∈ (Handler.Close h).eventChans) :
    (Handler.Close h).isClosed = true ∧
    c.closed = true ∧
    (Handler.Close h).eventChans.length = h.eventChans.length ∧
    (Handler.Close h).register sid = none := by
  refine ⟨rfl, ?_, by simp [Handler.Close], ?_⟩
  · unfold Handler.Close at hc
    simp only [List.mem_map] at hc
    obtain ⟨x, _, hx⟩ := hc
    rw [← hx]
  · unfold Handler.register
    exact if_pos (show (Handler.Close h).isClosed = true from rfl)

/-- Witness for c9_close_amended at a one-subscriber handler. -/
theorem c9_close_amended_witness :
    ({ sid := 0, buffer := [], closed := true } : Subscriber) ∈
      (Handler.Close
        { cfg := DefaultHandlerConfig, eventQueue := [],
          eventChans := [{ sid := 0, buffer := [], closed := false }],
          isClosed := false }).eventChans ∧
    (Handler.Close
      { cfg := DefaultHandlerConfig, eventQueue := [],
        eventChans := [{ sid := 0, buffer := [], closed := false }],
        isClosed := false }).register 1 = none := by
  refine ⟨by decide, ?_⟩
  exact (c9_close_amended
    { cfg := DefaultHandlerConfig, eventQueue := [],
      eventChans := [{ sid := 0, buffer := [], closed := false }],
      isClosed := false } 1
    { sid := 0, buffer := [], closed := true } (by decide)).2.2.2

theorem lastMatchIdxAux_eq (lid : String) (L : List Event) (i acc : Int) :
    lastMatchIdxAux lid L i acc =
      match lastMatchNat lid L with
      | none => acc
      | some j => i + (j : Int) := by
  induction L generalizing i acc with
  | nil => rfl
  | cons e r ih =>
    unfold lastMatchIdxAux lastMatchNat
    rw [ih]
    cases hr : lastMatchNat lid r with
    | some j =>
      dsimp only
      push_cast
      ring
    | none =>
      by_cases he : lid = e.id
      · simp only [if_pos he]
        simp
      · simp only [if_neg he]

theorem lastMatchNat_none (lid : String) (L : List Event) :
    lastMatchNat lid L = none ↔ ∀ e ∈ L, lid ≠ e.id := by
  induction L with
  | nil => simp [lastMatchNat]
  | cons e r ih =>
    unfold lastMatchNat
    cases hr : lastMatchNat lid r with
    | some j =>
      dsimp only
      constructor
      · intro hcontra
        cases hcontra
      · intro hall
        have hnone : lastMatchNat lid r = none :=
          ih.mpr (fun x hx => hall x (List.mem_cons_of_mem e hx))
        rw [hnone] at hr
        cases hr
    | none =>
      by_cases he : lid = e.id
      · simp only [if_pos he]
        constructor
        · intro hcontra
          cases hcontra
        · intro hall
          exact absurd he (hall e (by simp))
      · simp only [if_neg he]
        constructor
        · intro _ x hx
          rcases List.mem_cons.mp hx with hx1 | hx2
          · rw [hx1]; exact he
          · exact (ih.mp hr) x hx2
        · intro _
          trivial

theorem lastMatchNat_spec (lid : String) (L : List Event) (j : Nat)
    (hj : lastMatchNat lid L = some j) :
    (∃ ej, L.get? j = some ej ∧ ej.id = lid) ∧
    (∀ k ek, j < k → L.get? k = some ek → ek.id ≠ lid) := by
  induction L generalizing j with
  | nil => cases hj
  | cons e r ih =>
    unfold lastMatchNat at hj
    cases hr : lastMatchNat lid r with
    | some j2 =>
      rw [hr] at hj
      simp only [Option.some.injEq] at hj
      obtain ⟨⟨ej, hget, hid⟩, hafter⟩ := ih j2 hr
      refine ⟨⟨ej, ?_, hid⟩, ?_⟩
      · rw [← hj]
        simpa using hget
      · intro k ek hk hgetk
        rw [← hj] at hk
        cases k with
        | zero => omega
        | succ k2 =>
          simp only [List.get?_cons_succ] at hgetk
          exact hafter k2 ek (by omega) hgetk
    | none =>
      rw [hr] at hj
      by_cases he : lid = e.id
      · rw [if_pos he] at hj
        simp only [Option.some.injEq] at hj
        refine ⟨⟨e, by rw [← hj]; rfl, he.symm⟩, ?_⟩
        intro k ek hk hgetk
        rw [← hj] at hk
        cases k with
        | zero => omega
        | succ k2 =>
          simp only [List.get?_cons_succ] at hgetk
          have hmem : ek ∈ r := List.get?_mem hgetk
          exact fun hcontra => ((lastMatchNat_none lid r).mp hr) ek hmem hcontra.symm
      · rw [if_neg he] at hj
        cases hj

/-- Claim C4: for a connection presenting a (nonempty) Last-Event-ID, the
replay computation emits, when some window entry's ID matches, exactly
the entries strictly after the last matching entry, in window (send)
order; and when no entry matches, the entire window. -/
theorem c4_replay (q : List Event) (lid : String) (_hne : lid ≠ "") :
    ((∀ e ∈ q, e.id ≠ lid) → ReplayEvents q lid = q) ∧
    (∀ j0 ej0, q.get? j0 = some ej0 → ej0.id = lid →
      ∃ i, (∃ ei, q.get? i = some ei ∧ ei.id = lid) ∧
        (∀ k ek, i < k → q.get? k = some ek → ek.id ≠ lid) ∧
        ReplayEvents q lid = q.drop (i + 1)) := by
  constructor
  · intro hall
    have hnone : lastMatchNat lid q = none :=
      (lastMatchNat_none lid q).mpr (fun e he => (hall e he).symm)
    unfold ReplayEvents
    rw [lastMatchIdxAux_eq, hnone]
    rfl
  · intro j0 ej0 hget0 hid0
    cases hmatch : lastMatchNat lid q with
    | none =>
      have hmem : ej0 ∈ q := List.get?_mem hget0
      exact absurd hid0.symm (((lastMatchNat_none lid q).mp hmatch) ej0 hmem)
    | some j =>
      obtain ⟨⟨ej, hget, hid⟩, hafter⟩ := lastMatchNat_spec lid q j hmatch
      refine ⟨j, ⟨ej, hget, hid⟩, hafter, ?_⟩
      unfold ReplayEvents
      rw [lastMatchIdxAux_eq, hmatch]
      have htn : ((0 : Int) + (j : Int) + 1).toNat = j + 1 := by omega
      rw [htn]

/-- Witness for c4_replay: in the window [id "1", id "2"], resuming from
"1" replays exactly the entry with id "2"; resuming from an unknown id
replays the whole window. -/
theorem c4_replay_witness :
    ReplayEvents
      [{ type := "m", data := "a", id := "1" },
       { type := "m", data := "b", id := "2" }] "zzz" =
      [{ type := "m", data := "a", id := "1" },
       { type := "m", data := "b", id := "2" }] ∧
    (∃ i, (∃ ei, ([{ type := "m", data := "a", id := "1" },
                   { type := "m", data := "b", id := "2" }] : List Event).get? i =
                some ei ∧ ei.id = "1") ∧
      (∀ k ek, i < k →
        ([{ type := "m", data := "a", id := "1" },
          { type := "m", data := "b", id := "2" }] : List Event).get? k = some ek →
        ek.id ≠ "1") ∧
      ReplayEvents
        [{ type := "m", data := "a", id := "1" },
         { type := "m", data := "b", id := "2" }] "1" =
        ([{ type := "m", data := "a", id := "1" },
          { type := "m", data := "b", id := "2" }] : List Event).drop (i + 1)) := by
  constructor
  · exact (c4_replay _ "zzz" (by decide)).1 (by decide)
  · exact (c4_replay _ "1" (by decide)).2 0
      { type := "m", data := "a", id := "1" } (by decide) (by decide)

theorem indexEol_lt {s : List Char} {i : Nat} (h : indexEol s = some i) :
    i < s.length := by
  induction s generalizing i with
  | nil => cases h
  | cons c r ih =>
    unfold indexEol at h
    by_cases hc : c = '\r' ∨ c = '\n'
    · rw [if_pos hc] at h
      injection h with h1
      rw [← h1]
      simp
    · rw [if_neg hc] at h
      cases hr : indexEol r with
      | none => rw [hr] at h; cases h
      | some j =>
        rw [hr] at h
        simp only [Option.map_some', Option.some.injEq] at h
        have := ih hr
        simp only [List.length_cons]
        omega

theorem scanLines_pos {s : List Char} {b : Bool} {adv : Nat} {t : List Char}
    (h : scanLines s b = (adv, some t)) : 1 ≤ adv ∧ adv ≤ s.length := by
  unfold scanLines at h
  split at h
  · exact absurd h (by simp)
  · rename_i hcond
    cases hix : indexEol s with
    | none =>
      rw [hix] at h
      dsimp only at h
      split at h
      · rename_i hb
        simp only [Prod.mk.injEq] at h
        have hs : s ≠ [] := fun hs => hcond ⟨hb, hs⟩
        have : 1 ≤ s.length := List.length_pos.mpr hs
        omega
      · exact absurd h (by simp)
    | some eol =>
      rw [hix] at h
      have heol := indexEol_lt hix
      dsimp only at h
      split at h
      · rename_i hcr
        have h2 : s.get? (eol + 1) = some '\n' := hcr.2
        have : eol + 1 < s.length := (List.get?_eq_some.mp h2).1
        simp only [Prod.mk.injEq] at h
        omega
      · simp only [Prod.mk.injEq] at h
        omega

theorem tokenizeTrue_mono (f : Nat) : ∀ (g : Nat) (s : List Char),
    s.length < f → s.length < g → tokenizeTrue f s = tokenizeTrue g s := by
  induction f with
  | zero => intro g s hf _; omega
  | succ f ih =>
    intro g s hf hg
    cases g with
    | zero => omega
    | succ g =>
      unfold tokenizeTrue
      cases hsc : scanLines s true with
      | mk adv otok =>
        cases otok with
        | none => rfl
        | some tok =>
          have hpos := scanLines_pos hsc
          dsimp only
          congr 1
          apply ih
          · rw [List.length_drop]; omega
          · rw [List.length_drop]; omega

theorem tokenizeFalse_mono (f : Nat) : ∀ (g : Nat) (s : List Char),
    s.length < f → s.length < g → tokenizeFalse f s = tokenizeFalse g s := by
  induction f with
  | zero => intro g s hf _; omega
  | succ f ih =>
    intro g s hf hg
    cases g with
    | zero => omega
    | succ g =>
      unfold tokenizeFalse
      cases hsc : scanLines s false with
      | mk adv otok =>
        cases otok with
        | none => exact tokenizeTrue_mono (f + 1) (g + 1) s hf hg
        | some tok =>
          have hpos := scanLines_pos hsc
          dsimp only
          congr 1
          apply ih
          · rw [List.length_drop]; omega
          · rw [List.length_drop]; omega

theorem noEol_append {a b : List Char} (ha : noEol a) (hb : noEol b) :
    noEol (a ++ b) := by
  intro c hc
  rcases List.mem_append.mp hc with h1 | h2
  · exact ha c h1
  · exact hb c h2

theorem indexEol_append {a : List Char} (b : List Char) (ha : noEol a) :
    indexEol (a ++ '\n' :: b) = some a.length := by
  induction a with
  | nil => simp [indexEol]
  | cons c r ih =>
    have hc := ha c (by simp)
    have hr : noEol r := fun x hx => ha x (by simp [hx])
    show indexEol (c :: (r ++ '\n' :: b)) = _
    unfold indexEol
    rw [if_neg (by rcases hc with ⟨h1, h2⟩; rintro (h3 | h4) <;> contradiction)]
    rw [ih hr]
    simp

theorem scanLines_clean (a b : List Char) (ha : noEol a) :
    scanLines (a ++ '\n' :: b) false = (a.length + 1, some a) := by
  unfold scanLines
  rw [if_neg (by simp)]
  rw [indexEol_append b ha]
  have hget : (a ++ '\n' :: b).get? a.length = some '\n' := by
    rw [List.get?_append_right (le_refl a.length)]

    simp
  dsimp only
  rw [if_neg (fun hcr => by rw [hget] at hcr; exact absurd hcr.1 (by simp))]
  have htake : (a ++ '\n' :: b).take a.length = a := List.take_left a ('\n' :: b)
  rw [htake]

theorem drop_append_cons (a b : List Char) :
    (a ++ '\n' :: b).drop (a.length + 1) = b := by
  have h1 : a ++ '\n' :: b = (a ++ ['\n']) ++ b := by simp
  have h2 : (a ++ ['\n']).length = a.length + 1 := by simp
  rw [h1, ← h2, List.drop_left]

theorem tokenize_cons (a b : List Char) (ha : noEol a) :
    tokenize (a ++ '\n' :: b) = a :: tokenize b := by
  unfold tokenize
  have hstep : tokenizeFalse ((a ++ '\n' :: b).length + 1) (a ++ '\n' :: b) =
      a :: tokenizeFalse ((a ++ '\n' :: b).length) ((a ++ '\n' :: b).drop (a.length + 1)) := by
    rw [tokenizeFalse]
    rw [scanLines_clean a b ha]
  rw [hstep, drop_append_cons]
  congr 1
  apply tokenizeFalse_mono
  · simp
    omega
  · omega

/-- Claim C3, amended: for every Event whose field values contain no line
breaks, the serialized output splits into lines as: an event line exactly
when Type is nonempty, then an id line exactly when ID is nonempty, then
always exactly one data line — even when Data is empty — and the blank
record terminator; no other line (in particular no retry line) is
emitted, and the order event, id, data is fixed. -/
theorem c3_bytes_line_structure (e : Event)
    (ht : noEol e.type.toList) (hi : noEol e.id.toList) (hd : noEol e.data.toList) :
    tokenize (Event.Bytes e) =
      (if e.type = "" then [] else ["event:".toList ++ e.type.toList]) ++
      (if e.id = "" then [] else ["id:".toList ++ e.id.toList]) ++
      ["data:".toList ++ e.data.toList, []] := by
  have hA : noEol ("event:".toList ++ e.type.toList) :=
    noEol_append (by decide) ht
  have hB : noEol ("id:".toList ++ e.id.toList) :=
    noEol_append (by decide) hi
  have hC : noEol ("data:".toList ++ e.data.toList) :=
    noEol_append (by decide) hd
  have htail : tokenize ['\n'] = [[]] := by decide
  by_cases h1 : e.type = ""
  · by_cases h2 : e.id = ""
    · have hb : Event.Bytes e =
          ("data:".toList ++ e.data.toList) ++ '\n' :: ['\n'] := by
        simp [Event.Bytes, h1, h2]
      rw [hb, tokenize_cons _ _ hC, htail]
      simp [h1, h2]
    · have hb : Event.Bytes e =
          ("id:".toList ++ e.id.toList) ++ '\n' ::
            (("data:".toList ++ e.data.toList) ++ '\n' :: ['\n']) := by
        simp [Event.Bytes, h1, h2]
      rw [hb, tokenize_cons _ _ hB, tokenize_cons _ _ hC, htail]
      simp [h1, h2]
  · by_cases h2 : e.id = ""
    · have hb : Event.Bytes e =
          ("event:".toList ++ e.type.toList) ++ '\n' ::
            (("data:".toList ++ e.data.toList) ++ '\n' :: ['\n']) := by
        simp [Event.Bytes, h1, h2]
      rw [hb, tokenize_cons _ _ hA, tokenize_cons _ _ hC, htail]
      simp [h1, h2]
    · have hb : Event.Bytes e =
          ("event:".toList ++ e.type.toList) ++ '\n' ::
            (("id:".toList ++ e.id.toList) ++ '\n' ::
              (("data:".toList ++ e.data.toList) ++ '\n' :: ['\n'])) := by
        simp [Event.Bytes, h1, h2]
      rw [hb, tokenize_cons _ _ hA, tokenize_cons _ _ hB, tokenize_cons _ _ hC, htail]
      simp [h1, h2]

/-- Witness for c3_bytes_line_structure on a fully populated event. -/
theorem c3_bytes_line_structure_witness :
    noEol ("t1" : String).toList ∧
    tokenize (Event.Bytes { type := "t1", data := "d1", id := "i1" }) =
      (if ("t1" : String) = "" then [] else ["event:".toList ++ "t1".toList]) ++
      (if ("i1" : String) = "" then [] else ["id:".toList ++ "i1".toList]) ++
      ["data:".toList ++ "d1".toList, []] := by
  refine ⟨by decide, ?_⟩
  exact c3_bytes_line_structure { type := "t1", data := "d1", id := "i1" }
    (by decide) (by decide) (by decide)
